import Mathlib

set_option autoImplicit false
set_option maxHeartbeats 1000000
set_option linter.unusedVariables false

namespace Clippy

/-- Identifiers of items (traits) in the type environment, `rustc_span::DefId`. -/
abbrev DefId := Nat

/-- Source spans, kept as opaque ids; their text is looked up through the context. -/
abbrev Span := Nat

/-- Interned symbols; the lint consults only `sym::Any`. -/
inductive Sym where
  | Any
  | other (n : Nat)
deriving DecidableEq

/-- An existential trait reference inside a trait object (`ty::ExistentialTraitRef`);
the lint consults only its `def_id`. -/
structure ExistentialTraitRef where
  def_id : DefId
deriving DecidableEq

/-- The predicates making up a trait object's capability set
(`ty::ExistentialPredicate`). -/
inductive ExistentialPredicate where
  | Trait (t : ExistentialTraitRef)
  | Projection (n : Nat)
  | AutoTrait (def_id : DefId)
deriving DecidableEq

/-- Modelled from the spec: `ty::Binder` is external to src/; the spec requires
"capability-set iteration with quantifier-binding info", so a binder carries a value
together with a flag recording whether any variables are bound (quantified). -/
structure Binder (α : Type) where
  hasBoundVars : Bool
  value : α
deriving DecidableEq

/-- Embedding of `Binder::no_bound_vars`: `some` of the contents exactly when no
variables are bound. -/
def Binder.no_bound_vars {α : Type} (b : Binder α) : Option α :=
  if b.hasBoundVars then none else some b.value

/-- Reference mutability, `rustc_ast::Mutability`. -/
inductive Mutability where
  | Not
  | Mut
deriving DecidableEq

/-- The shapes of types this lint distinguishes. `ref` is `ty::Ref(region, ty, mutbl)`
and `dynamic` is `ty::Dynamic(traits, ..)`, both matched in src/. `indirect` is
modelled from the spec: an indirection (smart-pointer) type such as `Box` whose one
deref step yields its argument. `prim` is any other type, with no indirection. -/
inductive Ty where
  | ref (region : Nat) (t : Ty) (mutbl : Mutability)
  | dynamic (traits : List (Binder ExistentialPredicate))
  | indirect (t : Ty)
  | prim (n : Nat)
deriving DecidableEq

/-- Modelled from the spec: the ambient type environment handle; the lint consults only
its diagnostic-name registry through `TyCtxt::is_diagnostic_item`. -/
structure TyCtxt where
  is_diagnostic_item : Sym → DefId → Bool

/-- Direct embedding of `is_dyn_any` (src/clippy_lints/src/coerce_any_ref_to_any.rs):
true iff the type is a trait object one of whose predicates, having no bound
variables, is a trait predicate whose def-id is the `Any` diagnostic item. -/
def is_dyn_any (tcx : TyCtxt) (ty : Ty) : Bool :=
  match ty with
  | Ty.dynamic traits =>
      traits.any fun binder =>
        match binder.no_bound_vars with
        | some (ExistentialPredicate.Trait t) => tcx.is_diagnostic_item Sym.Any t.def_id
        | _ => false
  | _ => false

/-- Modelled from the spec: `clippy_utils::ty::deref_chain` is not under src/. Per the
spec's DerefChainResolver it is the finite sequence of successively deref-unwrapped
types ending at a fixed point, and per the spec's depth-computation property together
with the lint's own doc example in src/ (`&x` on `x : Box<dyn Any>` is rewritten to
`&*x`, forcing depth 1 there) the sequence begins with the input type itself.
References and indirection types admit one unwrap step; all other types are fixed
points. -/
def deref_chain : Ty → List Ty
  | Ty.ref rg t mutbl => Ty.ref rg t mutbl :: deref_chain t
  | Ty.indirect t => Ty.indirect t :: deref_chain t
  | t => [t]

/-- Modelled from the spec: one indirection-removal step (the spec's DerefStep),
defined exactly when the type is a reference or an indirection type. -/
def derefStep : Ty → Option Ty
  | Ty.ref _ t _ => some t
  | Ty.indirect t => some t
  | _ => none

/-- Analysis helper: the number of indirection-removal steps a type admits. -/
def chainDepth : Ty → Nat
  | Ty.ref _ t _ => chainDepth t + 1
  | Ty.indirect t => chainDepth t + 1
  | _ => 0

/-- Analysis helper: the fixed point reached by unwrapping all indirections. -/
def chainLast : Ty → Ty
  | Ty.ref _ t _ => chainLast t
  | Ty.indirect t => chainLast t
  | t => t

/-- Kinds of borrow in an address-of expression, `rustc_ast::BorrowKind`. -/
inductive BorrowKind where
  | Ref
  | Raw
deriving DecidableEq

mutual
/-- HIR expressions: a source span plus a kind. -/
inductive Expr where
  | mk (span : Span) (kind : ExprKind)
/-- Expression kinds; the lint distinguishes only
`ExprKind::AddrOf(borrow_kind, mutability, referent)` from everything else. -/
inductive ExprKind where
  | AddrOf (bk : BorrowKind) (mutbl : Mutability) (referent : Expr)
  | Other (n : Nat)
end

/-- Projection of an expression's span. -/
def Expr.span : Expr → Span
  | Expr.mk s _ => s

/-- Projection of an expression's kind. -/
def Expr.kind : Expr → ExprKind
  | Expr.mk _ k => k

/-- Modelled from the spec: the read-only context handed to the lint — the type
environment, the typeck results (`expr_ty` and `expr_ty_adjusted`), and source text
retrieval by span. -/
structure LateContext where
  tcx : TyCtxt
  expr_ty : Expr → Ty
  expr_ty_adjusted : Expr → Ty
  source_text : Span → Option String

/-- Modelled from the spec: `clippy_utils::source::snippet` returns the verbatim
source text of a span, falling back to the supplied placeholder when the text is
unavailable. -/
def snippet (cx : LateContext) (sp : Span) (default : String) : String :=
  match cx.source_text sp with
  | some s => s
  | none => default

/-- Applicability levels of a suggestion, `rustc_errors::Applicability`. -/
inductive Applicability where
  | MachineApplicable
  | MaybeIncorrect
  | HasPlaceholders
  | Unspecified
deriving DecidableEq

/-- A lint, identified by its name. -/
structure Lint where
  name : String
deriving DecidableEq

/-- The lint declared by the `declare_clippy_lint!` invocation in src/. -/
def COERCE_ANY_REF_TO_ANY : Lint :=
  { name := "coerce_any_ref_to_any" }

/-- The output record: one emitted diagnostic. -/
structure Diagnostic where
  lint : Lint
  span : Span
  msg : String
  help : String
  sugg : String
  applicability : Applicability
deriving DecidableEq

/-- Modelled from the spec: `clippy_utils::diagnostics::span_lint_and_sugg` packages
its arguments into one diagnostic record handed to the host. -/
def span_lint_and_sugg (cx : LateContext) (lint : Lint) (sp : Span) (msg : String)
    (help : String) (sugg : String) (applicability : Applicability) : Diagnostic :=
  { lint := lint, span := sp, msg := msg, help := help, sugg := sugg,
    applicability := applicability }

/-- Rust's `str::repeat`, used for the dereference prefixes. -/
def str_repeat (s : String) (n : Nat) : String :=
  String.join (List.replicate n s)

/-- Modelled from the spec: the host pretty-printer for types, used only inside the
diagnostic message text. -/
def Ty.display : Ty → String
  | Ty.ref _ t _ => "&" ++ Ty.display t
  | Ty.indirect t => "Box<" ++ Ty.display t ++ ">"
  | Ty.dynamic _ => "dyn Any"
  | Ty.prim n => "T" ++ toString n

/-- The diagnostic message built by the `format!` call in `check_expr`. -/
def lint_msg (expr_ty : Ty) : String :=
  "coercing `" ++ Ty.display expr_ty ++
    "` to `&dyn Any` rather than dereferencing to the `dyn Any` inside"

/-- The span and deref-count pair chosen in `check_expr`: for an explicit address-of,
the referent's span with the chain depth; otherwise the whole expression's span with
one extra dereference. -/
def sugg_pair (e : Expr) (depth : Nat) : Span × Nat :=
  match e.kind with
  | ExprKind.AddrOf _ _ referent => (referent.span, depth)
  | _ => (e.span, depth + 1)

/-- Direct embedding of `CoerceAnyRefToAny::check_expr`
(src/clippy_lints/src/coerce_any_ref_to_any.rs, lines 41 to 85): the per-expression
decision rule, returning the emitted diagnostic if any. -/
def check_expr (cx : LateContext) (e : Expr) : Option Diagnostic :=
  match cx.expr_ty_adjusted e with
  | Ty.ref _ coerced_ref_ty _ =>
    if ! is_dyn_any cx.tcx coerced_ref_ty then none
    else
      match cx.expr_ty e with
      | Ty.ref rg2 expr_ref_ty mu2 =>
        if is_dyn_any cx.tcx expr_ref_ty then none
        else
          match (deref_chain expr_ref_ty).enum.getLast? with
          | none => none
          | some (depth, target) =>
            if ! is_dyn_any cx.tcx target then none
            else
              let sd := sugg_pair e depth
              some (span_lint_and_sugg cx COERCE_ANY_REF_TO_ANY e.span
                (lint_msg (Ty.ref rg2 expr_ref_ty mu2))
                "consider dereferencing"
                ("&" ++ str_repeat "*" sd.2 ++ snippet cx sd.1 "x")
                Applicability.MaybeIncorrect)
      | _ => none
  | _ => none

/-- Concrete fixture: the type `dyn Any`, a trait object whose single predicate is an
unquantified trait predicate on def-id 0, registered below as the `Any` item. -/
def dynAny : Ty :=
  Ty.dynamic [{ hasBoundVars := false, value := ExistentialPredicate.Trait { def_id := 0 } }]

/-- Concrete fixture: the type `Box<dyn Any>`. -/
def boxDynAny : Ty :=
  Ty.indirect dynAny

/-- Concrete fixture: a type environment in which def-id 0 is the `Any` diagnostic
item. -/
def tcx0 : TyCtxt :=
  { is_diagnostic_item := fun s d =>
      match s with
      | Sym.Any => d == 0
      | Sym.other _ => false }

/-- Concrete fixture: the expression `x` at span 1. -/
def x0 : Expr :=
  Expr.mk 1 (ExprKind.Other 0)

/-- Concrete fixture: the expression `&x` at span 2, an explicit address-of of `x0`. -/
def e0 : Expr :=
  Expr.mk 2 (ExprKind.AddrOf BorrowKind.Ref Mutability.Not x0)

/-- Concrete fixture: the context of the spec's Scenario A — every expression has
declared type `&Box<dyn Any>` and adjusted type `&dyn Any`. -/
def cx0 : LateContext :=
  { tcx := tcx0,
    expr_ty := fun _ => Ty.ref 0 boxDynAny Mutability.Not,
    expr_ty_adjusted := fun _ => Ty.ref 0 dynAny Mutability.Not,
    source_text := fun sp => if sp == 1 then some "x" else if sp == 2 then some "&x" else none }

/-- Concrete fixture: the expression `g()` at span 3, not an address-of node. -/
def e1 : Expr :=
  Expr.mk 3 (ExprKind.Other 1)

/-- Concrete fixture: the diagnostic that `check_expr` emits on `cx0` and `e0`. -/
def diag0 : Diagnostic :=
  span_lint_and_sugg cx0 COERCE_ANY_REF_TO_ANY 2
    (lint_msg (Ty.ref 0 boxDynAny Mutability.Not))
    "consider dereferencing" "&*x" Applicability.MaybeIncorrect

/-- Concrete fixture: a context of the spec's Scenario D — every expression already has
declared type `&dyn Any`, equal to its adjusted type. -/
def cxD : LateContext :=
  { tcx := tcx0,
    expr_ty := fun _ => Ty.ref 0 dynAny Mutability.Not,
    expr_ty_adjusted := fun _ => Ty.ref 0 dynAny Mutability.Not,
    source_text := fun _ => none }

/-- Concrete fixture: a context of the spec's Scenario C — every expression has
declared type `&i32` (a plain non-indirection referent) and adjusted type
`&dyn Any`. -/
def cx8 : LateContext :=
  { tcx := tcx0,
    expr_ty := fun _ => Ty.ref 0 (Ty.prim 0) Mutability.Not,
    expr_ty_adjusted := fun _ => Ty.ref 0 dynAny Mutability.Not,
    source_text := fun _ => none }

theorem deref_chain_ne_nil (t : Ty) : deref_chain t ≠ [] := by
  cases t <;> simp [deref_chain]

theorem deref_chain_head? (t : Ty) : (deref_chain t).head? = some t := by
  cases t <;> rfl

theorem deref_chain_length (t : Ty) : (deref_chain t).length = chainDepth t + 1 := by
  induction t with
  | ref rg u mu ih => simp [deref_chain, chainDepth, ih]
  | indirect u ih => simp [deref_chain, chainDepth, ih]
  | dynamic l => rfl
  | prim n => rfl

theorem getLast?_cons_of_ne_nil {α : Type} (a : α) (l : List α) (h : l ≠ []) :
    (a :: l).getLast? = l.getLast? := by
  cases l with
  | nil => exact absurd rfl h
  | cons b m => exact List.getLast?_cons_cons

theorem deref_chain_getLast? (t : Ty) :
    (deref_chain t).getLast? = some (chainLast t) := by
  induction t with
  | ref rg u mu ih =>
      rw [show deref_chain (Ty.ref rg u mu) = Ty.ref rg u mu :: deref_chain u from rfl]
      rw [getLast?_cons_of_ne_nil _ _ (deref_chain_ne_nil u)]
      simpa [chainLast] using ih
  | indirect u ih =>
      rw [show deref_chain (Ty.indirect u) = Ty.indirect u :: deref_chain u from rfl]
      rw [getLast?_cons_of_ne_nil _ _ (deref_chain_ne_nil u)]
      simpa [chainLast] using ih
  | dynamic l => rfl
  | prim n => rfl

theorem enumFrom_getLast? {α : Type} :
    ∀ (l : List α) (n : Nat) (x : α), l.getLast? = some x →
      (l.enumFrom n).getLast? = some (n + (l.length - 1), x)
  | [], _, _, h => by simp at h
  | [a], n, x, h => by
      simp [List.getLast?] at h
      subst h
      simp [List.enumFrom]
  | a :: b :: l, n, x, h => by
      rw [List.getLast?_cons_cons] at h
      have ih := enumFrom_getLast? (b :: l) (n + 1) x h
      show ((n, a) :: List.enumFrom (n + 1) (b :: l)).getLast? = _
      rw [getLast?_cons_of_ne_nil _ _ (by simp [List.enumFrom])]
      rw [ih]
      have harith : n + 1 + ((b :: l).length - 1) = n + ((a :: b :: l).length - 1) := by
        simp only [List.length_cons]
        omega
      rw [harith]

theorem deref_chain_enum_getLast? (t : Ty) :
    (deref_chain t).enum.getLast? = some (chainDepth t, chainLast t) := by
  have h := enumFrom_getLast? (deref_chain t) 0 (chainLast t) (deref_chain_getLast? t)
  show (List.enumFrom 0 (deref_chain t)).getLast? = _
  rw [h, deref_chain_length]
  simp

theorem check_expr_fire (cx : LateContext) (e : Expr) (rg : Nat) (r : Ty)
    (mu : Mutability) (rg2 : Nat) (r2 : Ty) (mu2 : Mutability)
    (h1 : cx.expr_ty_adjusted e = Ty.ref rg r mu)
    (h2 : is_dyn_any cx.tcx r = true)
    (h3 : cx.expr_ty e = Ty.ref rg2 r2 mu2)
    (h4 : is_dyn_any cx.tcx r2 = false)
    (h6 : is_dyn_any cx.tcx (chainLast r2) = true) :
    check_expr cx e = some (span_lint_and_sugg cx COERCE_ANY_REF_TO_ANY e.span
      (lint_msg (Ty.ref rg2 r2 mu2)) "consider dereferencing"
      ("&" ++ str_repeat "*" (sugg_pair e (chainDepth r2)).2 ++
        snippet cx (sugg_pair e (chainDepth r2)).1 "x")
      Applicability.MaybeIncorrect) := by
  unfold check_expr
  rw [h1, h3]
  simp [h2, h4, deref_chain_enum_getLast?, deref_chain_getLast?, deref_chain_length, h6]

theorem check_expr_some_inv (cx : LateContext) (e : Expr) (diag : Diagnostic)
    (h : check_expr cx e = some diag) :
    ∃ rg r mu rg2 r2 mu2,
      cx.expr_ty_adjusted e = Ty.ref rg r mu ∧ is_dyn_any cx.tcx r = true ∧
      cx.expr_ty e = Ty.ref rg2 r2 mu2 ∧ is_dyn_any cx.tcx r2 = false ∧
      is_dyn_any cx.tcx (chainLast r2) = true ∧
      diag = span_lint_and_sugg cx COERCE_ANY_REF_TO_ANY e.span
        (lint_msg (Ty.ref rg2 r2 mu2)) "consider dereferencing"
        ("&" ++ str_repeat "*" (sugg_pair e (chainDepth r2)).2 ++
          snippet cx (sugg_pair e (chainDepth r2)).1 "x")
        Applicability.MaybeIncorrect := by
  unfold check_expr at h
  split at h
  case h_2 => exact absurd h (by simp)
  case h_1 rg r mu hadj =>
    split at h
    case isTrue => exact absurd h (by simp)
    case isFalse hcond =>
      have h2 : is_dyn_any cx.tcx r = true := by
        revert hcond
        cases is_dyn_any cx.tcx r <;> simp
      split at h
      case h_2 => exact absurd h (by simp)
      case h_1 rg2 r2 mu2 hdecl =>
        split at h
        case isTrue => exact absurd h (by simp)
        case isFalse hcond2 =>
          have h4 : is_dyn_any cx.tcx r2 = false := by
            revert hcond2
            cases is_dyn_any cx.tcx r2 <;> simp
          split at h
          case h_1 => exact absurd h (by simp)
          case h_2 depth target hlast =>
            rw [deref_chain_enum_getLast? r2] at hlast
            have hdepth : depth = chainDepth r2 := by
              have := Option.some.inj hlast
              exact (Prod.mk.injEq _ _ _ _ ▸ this).1.symm
            have htarget : target = chainLast r2 := by
              have := Option.some.inj hlast
              exact (Prod.mk.injEq _ _ _ _ ▸ this).2.symm
            subst hdepth
            subst htarget
            split at h
            case isTrue => exact absurd h (by simp)
            case isFalse hcond3 =>
              have h6 : is_dyn_any cx.tcx (chainLast r2) = true := by
                revert hcond3
                cases is_dyn_any cx.tcx (chainLast r2) <;> simp
              refine ⟨rg, r, mu, rg2, r2, mu2, hadj, h2, hdecl, h4, h6, ?_⟩
              simpa using h.symm

theorem chainLast_eq_self_of_step_none (t : Ty) (h : derefStep t = none) :
    chainLast t = t := by
  cases t with
  | ref rg u mu => exact absurd h (by simp [derefStep])
  | indirect u => exact absurd h (by simp [derefStep])
  | dynamic l => rfl
  | prim n => rfl

theorem derefStep_chainLast (t : Ty) : derefStep (chainLast t) = none := by
  induction t with
  | ref rg u mu ih => simpa [chainLast] using ih
  | indirect u ih => simpa [chainLast] using ih
  | dynamic l => rfl
  | prim n => rfl

theorem chainDepth_pos (tcx : TyCtxt) (t : Ty) (h4 : is_dyn_any tcx t = false)
    (h6 : is_dyn_any tcx (chainLast t) = true) : 1 ≤ chainDepth t := by
  cases t with
  | ref rg u mu => simp [chainDepth]
  | indirect u => simp [chainDepth]
  | dynamic l =>
      rw [show chainLast (Ty.dynamic l) = Ty.dynamic l from rfl, h4] at h6
      exact Bool.noConfusion h6
  | prim n =>
      rw [show chainLast (Ty.prim n) = Ty.prim n from rfl, h4] at h6
      exact Bool.noConfusion h6

theorem sugg_pair_count_ge (e : Expr) (depth : Nat) : depth ≤ (sugg_pair e depth).2 := by
  cases hk : e.kind <;> simp [sugg_pair, hk]

/-- C1: `check_expr` emits a diagnostic if and only if all of the following hold: the
adjusted (post-conversion) type is a reference whose referent satisfies `is_dyn_any`;
the declared (pre-conversion) type is also a reference; the declared referent does not
satisfy `is_dyn_any`; and the last element of the deref chain of the declared referent
satisfies `is_dyn_any`. Every failing condition yields no diagnostic, not an error. -/
theorem check_expr_fires_iff (cx : LateContext) (e : Expr) :
    (∃ diag, check_expr cx e = some diag) ↔
      ∃ rg r mu, cx.expr_ty_adjusted e = Ty.ref rg r mu ∧ is_dyn_any cx.tcx r = true ∧
        ∃ rg2 r2 mu2, cx.expr_ty e = Ty.ref rg2 r2 mu2 ∧ is_dyn_any cx.tcx r2 = false ∧
          ∃ tgt, (deref_chain r2).getLast? = some tgt ∧ is_dyn_any cx.tcx tgt = true := by
  constructor
  · rintro ⟨diag, hd⟩
    obtain ⟨rg, r, mu, rg2, r2, mu2, h1, h2, h3, h4, h6, _⟩ := check_expr_some_inv cx e diag hd
    exact ⟨rg, r, mu, h1, h2, rg2, r2, mu2, h3, h4, chainLast r2, deref_chain_getLast? r2, h6⟩
  · rintro ⟨rg, r, mu, h1, h2, rg2, r2, mu2, h3, h4, tgt, hlast, htgt⟩
    have heq : tgt = chainLast r2 := by
      rw [deref_chain_getLast? r2] at hlast
      exact (Option.some.inj hlast).symm
    subst heq
    exact ⟨_, check_expr_fire cx e rg r mu rg2 r2 mu2 h1 h2 h3 h4 htgt⟩

/-- C1 witness: the characterisation instantiated at the Scenario A fixture. -/
theorem check_expr_fires_iff_witness :
    (∃ diag, check_expr cx0 e0 = some diag) ↔
      ∃ rg r mu, cx0.expr_ty_adjusted e0 = Ty.ref rg r mu ∧ is_dyn_any cx0.tcx r = true ∧
        ∃ rg2 r2 mu2, cx0.expr_ty e0 = Ty.ref rg2 r2 mu2 ∧ is_dyn_any cx0.tcx r2 = false ∧
          ∃ tgt, (deref_chain r2).getLast? = some tgt ∧ is_dyn_any cx0.tcx tgt = true :=
  check_expr_fires_iff cx0 e0

/-- C2: an expression whose declared type is already a reference to a capability-any
type never gets a diagnostic, whatever the adjusted type is. -/
theorem check_expr_declared_any_none (cx : LateContext) (e : Expr) (rg2 : Nat) (r2 : Ty)
    (mu2 : Mutability) (h3 : cx.expr_ty e = Ty.ref rg2 r2 mu2)
    (h4 : is_dyn_any cx.tcx r2 = true) : check_expr cx e = none := by
  cases hchk : check_expr cx e with
  | none => rfl
  | some diag =>
      obtain ⟨_, _, _, rg2x, r2x, mu2x, _, _, hdecl, h4x, _, _⟩ :=
        check_expr_some_inv cx e diag hchk
      rw [h3] at hdecl
      rw [(Ty.ref.inj hdecl).2.1, h4x] at h4
      exact Bool.noConfusion h4

/-- C2 witness: Scenario D — both declared and adjusted types are the reference to
`dyn Any`, and no diagnostic is emitted. -/
theorem check_expr_declared_any_none_witness : check_expr cxD e0 = none :=
  check_expr_declared_any_none cxD e0 0 dynAny Mutability.Not rfl (by decide)

/-- C4: `is_dyn_any` holds exactly on trait-object types whose capability set contains
a predicate with no bound (quantified) variables that is a trait predicate whose
def-id resolves to the distinguished `Any` diagnostic item; every non-dynamic type
yields false, and a bound occurrence of the predicate does not count. -/
theorem is_dyn_any_iff (tcx : TyCtxt) (t : Ty) :
    is_dyn_any tcx t = true ↔
      ∃ preds, t = Ty.dynamic preds ∧
        ∃ b ∈ preds, b.hasBoundVars = false ∧
          ∃ tr, b.value = ExistentialPredicate.Trait tr ∧
            tcx.is_diagnostic_item Sym.Any tr.def_id = true := by
  cases t with
  | ref rg u mu => simp [is_dyn_any]
  | indirect u => simp [is_dyn_any]
  | prim n => simp [is_dyn_any]
  | dynamic preds =>
      simp only [is_dyn_any, List.any_eq_true]
      constructor
      · rintro ⟨b, hb, hmatch⟩
        refine ⟨preds, rfl, b, hb, ?_⟩
        split at hmatch
        case h_1 tr heq =>
          unfold Binder.no_bound_vars at heq
          split at heq
          case isTrue => exact absurd heq (by simp)
          case isFalse hbv =>
            exact ⟨by simpa using hbv, tr, Option.some.inj heq, hmatch⟩
        case h_2 => exact absurd hmatch (by simp)
      · rintro ⟨preds2, heq, b, hb, hbv, tr, hv, hdi⟩
        injection heq with hpr
        subst hpr
        exact ⟨b, hb, by simp [Binder.no_bound_vars, hbv, hv, hdi]⟩

/-- C4 witness: the classifier instantiated at the `dyn Any` fixture. -/
theorem is_dyn_any_iff_witness :
    is_dyn_any tcx0 dynAny = true ↔
      ∃ preds, dynAny = Ty.dynamic preds ∧
        ∃ b ∈ preds, b.hasBoundVars = false ∧
          ∃ tr, b.value = ExistentialPredicate.Trait tr ∧
            tcx0.is_diagnostic_item Sym.Any tr.def_id = true :=
  is_dyn_any_iff tcx0 dynAny

/-- C6: when the declared type equals the adjusted type (no implicit conversion
happened), `check_expr` never emits a diagnostic. -/
theorem check_expr_no_adjust_none (cx : LateContext) (e : Expr)
    (h : cx.expr_ty e = cx.expr_ty_adjusted e) : check_expr cx e = none := by
  cases hchk : check_expr cx e with
  | none => rfl
  | some diag =>
      obtain ⟨rg, r, mu, rg2, r2, mu2, h1, h2, h3, h4, _, _⟩ :=
        check_expr_some_inv cx e diag hchk
      rw [h, h1] at h3
      rw [← (Ty.ref.inj h3).2.1, h2] at h4
      exact Bool.noConfusion h4

/-- C6 witness: a context where every expression has declared type equal to adjusted
type; no diagnostic is emitted. -/
theorem check_expr_no_adjust_none_witness : check_expr cxD e1 = none :=
  check_expr_no_adjust_none cxD e1 rfl

/-- C3: when the declared referent unwraps through exactly k indirection-removal steps
to the capability-any fixed point, the suggestion uses exactly k dereference prefixes
on the inner referent's span for an explicit address-of expression, and k+1 prefixes
on the whole expression's span otherwise. -/
theorem check_expr_depth_rule (cx : LateContext) (e : Expr) (rg : Nat) (r : Ty)
    (mu : Mutability) (rg2 : Nat) (r2 : Ty) (mu2 : Mutability) (k : Nat) (tgt : Ty)
    (h1 : cx.expr_ty_adjusted e = Ty.ref rg r mu)
    (h2 : is_dyn_any cx.tcx r = true)
    (h3 : cx.expr_ty e = Ty.ref rg2 r2 mu2)
    (h4 : is_dyn_any cx.tcx r2 = false)
    (hk : (deref_chain r2).length = k + 1)
    (hlast : (deref_chain r2).getLast? = some tgt)
    (htgt : is_dyn_any cx.tcx tgt = true) :
    ∃ diag, check_expr cx e = some diag ∧
      (∀ bk mub referent, e.kind = ExprKind.AddrOf bk mub referent →
        diag.sugg = "&" ++ str_repeat "*" k ++ snippet cx referent.span "x") ∧
      ((∀ bk mub referent, e.kind ≠ ExprKind.AddrOf bk mub referent) →
        diag.sugg = "&" ++ str_repeat "*" (k + 1) ++ snippet cx e.span "x") := by
  have heqt : tgt = chainLast r2 := by
    rw [deref_chain_getLast? r2] at hlast
    exact (Option.some.inj hlast).symm
  subst heqt
  have hkd : k = chainDepth r2 := by
    rw [deref_chain_length] at hk
    omega
  subst hkd
  refine ⟨_, check_expr_fire cx e rg r mu rg2 r2 mu2 h1 h2 h3 h4 htgt, ?_, ?_⟩
  · intro bk mub referent hkind
    simp [span_lint_and_sugg, sugg_pair, hkind]
  · intro hne
    cases hkind : e.kind with
    | AddrOf bk mub referent => exact absurd hkind (hne bk mub referent)
    | Other n => simp [span_lint_and_sugg, sugg_pair, hkind]

/-- C3 witness: Scenario A — `&x` with `x : Box<dyn Any>` coerced to `&dyn Any` gets
the suggestion `&*x`, one dereference for the one unwrap step. -/
theorem check_expr_depth_rule_witness :
    ∃ diag, check_expr cx0 e0 = some diag ∧ diag.sugg = "&*x" := by
  obtain ⟨diag, hsome, hA, _⟩ :=
    check_expr_depth_rule cx0 e0 0 dynAny Mutability.Not 0 boxDynAny Mutability.Not 1
      dynAny rfl (by decide) rfl (by decide) (by decide) (by decide) (by decide)
  refine ⟨diag, hsome, ?_⟩
  rw [hA BorrowKind.Ref Mutability.Not x0 rfl]
  decide

/-- C5: every emitted diagnostic carries the applicability MaybeIncorrect — never
MachineApplicable — and its replacement text is the character & followed by the
computed number of dereference operators followed by the source text of the chosen
span, with the placeholder substituted when source text is unavailable. -/
theorem check_expr_sugg_contract (cx : LateContext) (e : Expr) (diag : Diagnostic)
    (h : check_expr cx e = some diag) :
    diag.applicability = Applicability.MaybeIncorrect ∧
    ∃ sp d, diag.sugg = "&" ++ str_repeat "*" d ++ snippet cx sp "x" := by
  obtain ⟨rg, r, mu, rg2, r2, mu2, _, _, _, _, _, hdiag⟩ :=
    check_expr_some_inv cx e diag h
  subst hdiag
  exact ⟨rfl, (sugg_pair e (chainDepth r2)).1, (sugg_pair e (chainDepth r2)).2, rfl⟩

/-- C5 witness: the suggestion contract instantiated at the Scenario A fixture. -/
theorem check_expr_sugg_contract_witness :
    diag0.applicability = Applicability.MaybeIncorrect ∧
    ∃ sp d, diag0.sugg = "&" ++ str_repeat "*" d ++ snippet cx0 sp "x" :=
  check_expr_sugg_contract cx0 e0 diag0 (by decide)

/-- C7 counterexample: the deref chain of `Box<dyn Any>` begins with `Box<dyn Any>`
itself, not with the result `dyn Any` of one indirection-removal step, refuting the
claim that the chain excludes the input type. -/
theorem deref_chain_includes_input_cex :
    (deref_chain boxDynAny).head? = some boxDynAny ∧
    derefStep boxDynAny = some dynAny ∧ boxDynAny ≠ dynAny := by
  decide

/-- C7 (amended): for every type T the deref chain begins with T itself at index 0;
each subsequent element is the result of one indirection-removal step applied to the
previous element; and the last element admits no further step, so the depth used by
the decision rule is the 0-based index into a chain that includes the input type. -/
theorem deref_chain_spec (t : Ty) :
    (deref_chain t).head? = some t ∧
    (∀ i x y, (deref_chain t)[i]? = some x → (deref_chain t)[i + 1]? = some y →
      derefStep x = some y) ∧
    (∀ x, (deref_chain t).getLast? = some x → derefStep x = none) := by
  refine ⟨deref_chain_head? t, ?_, ?_⟩
  · induction t with
    | ref rg u mu ih =>
        intro i x y hx hy
        match i with
        | 0 =>
            rw [show deref_chain (Ty.ref rg u mu) = Ty.ref rg u mu :: deref_chain u
              from rfl] at hx hy
            rw [List.getElem?_cons_zero] at hx
            rw [List.getElem?_cons_succ] at hy
            have hy0 : (deref_chain u).head? = some y := by
              rw [List.head?_eq_getElem?]
              exact hy
            rw [deref_chain_head? u] at hy0
            rw [← Option.some.inj hx, ← Option.some.inj hy0]
            rfl
        | Nat.succ j =>
            rw [show deref_chain (Ty.ref rg u mu) = Ty.ref rg u mu :: deref_chain u
              from rfl] at hx hy
            rw [List.getElem?_cons_succ] at hx hy
            exact ih j x y hx hy
    | indirect u ih =>
        intro i x y hx hy
        match i with
        | 0 =>
            rw [show deref_chain (Ty.indirect u) = Ty.indirect u :: deref_chain u
              from rfl] at hx hy
            rw [List.getElem?_cons_zero] at hx
            rw [List.getElem?_cons_succ] at hy
            have hy0 : (deref_chain u).head? = some y := by
              rw [List.head?_eq_getElem?]
              exact hy
            rw [deref_chain_head? u] at hy0
            rw [← Option.some.inj hx, ← Option.some.inj hy0]
            rfl
        | Nat.succ j =>
            rw [show deref_chain (Ty.indirect u) = Ty.indirect u :: deref_chain u
              from rfl] at hx hy
            rw [List.getElem?_cons_succ] at hx hy
            exact ih j x y hx hy
    | dynamic l =>
        intro i x y hx hy
        match i with
        | 0 => rw [show deref_chain (Ty.dynamic l) = [Ty.dynamic l] from rfl] at hy; simp at hy
        | Nat.succ j => rw [show deref_chain (Ty.dynamic l) = [Ty.dynamic l] from rfl] at hx; simp at hx
    | prim n =>
        intro i x y hx hy
        match i with
        | 0 => rw [show deref_chain (Ty.prim n) = [Ty.prim n] from rfl] at hy; simp at hy
        | Nat.succ j => rw [show deref_chain (Ty.prim n) = [Ty.prim n] from rfl] at hx; simp at hx
  · intro x hx
    rw [deref_chain_getLast? t] at hx
    rw [← Option.some.inj hx]
    exact derefStep_chainLast t

/-- C7 amended witness: the amended chain description instantiated at `Box<dyn Any>`:
the chain starts with the input, its two successive elements are one step apart, and
its last element is a fixed point. -/
theorem deref_chain_spec_witness :
    (deref_chain boxDynAny).head? = some boxDynAny ∧
    derefStep boxDynAny = some dynAny ∧ derefStep dynAny = none :=
  ⟨(deref_chain_spec boxDynAny).1,
   (deref_chain_spec boxDynAny).2.1 0 boxDynAny dynAny rfl rfl,
   (deref_chain_spec boxDynAny).2.2 dynAny rfl⟩

/-- C8 counterexample: Scenario C fixture — an address-of expression whose declared
referent is a plain non-indirection type coerced to a reference to the capability-any
type. The deref chain of that referent is not empty (it is the one-element chain
holding the referent), refuting the claim that the chain is empty; no diagnostic is
still emitted, but because the chain's last element is not capability-any. -/
theorem no_indirection_chain_nonempty_cex :
    cx8.expr_ty e0 = Ty.ref 0 (Ty.prim 0) Mutability.Not ∧
    cx8.expr_ty_adjusted e0 = Ty.ref 0 dynAny Mutability.Not ∧
    is_dyn_any cx8.tcx dynAny = true ∧
    derefStep (Ty.prim 0) = none ∧
    deref_chain (Ty.prim 0) ≠ [] ∧
    check_expr cx8 e0 = none := by
  decide

/-- C8 (amended): for every expression whose declared referent admits no
indirection-removal step at all, the deref chain of that referent is the one-element
chain holding just the referent, and `check_expr` emits no diagnostic — the chain's
last element is the referent itself, so the chain cannot end at a capability-any type
the referent is not. -/
theorem check_expr_no_indirection_none (cx : LateContext) (e : Expr) (rg2 : Nat)
    (r2 : Ty) (mu2 : Mutability)
    (h3 : cx.expr_ty e = Ty.ref rg2 r2 mu2)
    (hstep : derefStep r2 = none) :
    deref_chain r2 = [r2] ∧ check_expr cx e = none := by
  constructor
  · cases r2 with
    | ref rg u mu => exact absurd hstep (by simp [derefStep])
    | indirect u => exact absurd hstep (by simp [derefStep])
    | dynamic l => rfl
    | prim n => rfl
  · cases hchk : check_expr cx e with
    | none => rfl
    | some diag =>
        obtain ⟨_, _, _, rg2x, r2x, mu2x, _, _, hdecl, h4, h6, _⟩ :=
          check_expr_some_inv cx e diag hchk
        rw [h3] at hdecl
        rw [← (Ty.ref.inj hdecl).2.1] at h4 h6
        rw [chainLast_eq_self_of_step_none r2 hstep, h4] at h6
        exact Bool.noConfusion h6

/-- C8 amended witness: the amended statement instantiated at the Scenario C
fixture. -/
theorem check_expr_no_indirection_none_witness :
    deref_chain (Ty.prim 0) = [Ty.prim 0] ∧ check_expr cx8 e0 = none :=
  check_expr_no_indirection_none cx8 e0 0 (Ty.prim 0) Mutability.Not rfl rfl

/-- C9: `check_expr` is a total function of its expression: it always returns, and
every exit is either no diagnostic or exactly one diagnostic — there is no error
outcome. -/
theorem check_expr_total (cx : LateContext) (e : Expr) :
    (check_expr cx e = none ∨ ∃ diag, check_expr cx e = some diag) ∧
    (∀ d1 d2, check_expr cx e = some d1 → check_expr cx e = some d2 → d1 = d2) := by
  constructor
  · cases h : check_expr cx e with
    | none => exact Or.inl rfl
    | some d => exact Or.inr ⟨d, rfl⟩
  · intro d1 d2 h1 h2
    rw [h1] at h2
    exact Option.some.inj h2

/-- C9 witness: totality instantiated at the Scenario A fixture. -/
theorem check_expr_total_witness :
    check_expr cx0 e0 = none ∨ ∃ diag, check_expr cx0 e0 = some diag :=
  (check_expr_total cx0 e0).1

/-- C10: whenever a diagnostic is emitted the dereference count is at least one, in
both the address-of and the non-address-of branch, so the replacement text always
contains at least one dereference operator and is never the original text
unchanged. -/
theorem check_expr_sugg_min_one_deref (cx : LateContext) (e : Expr) (diag : Diagnostic)
    (h : check_expr cx e = some diag) :
    ∃ d snip, 1 ≤ d ∧ diag.sugg = "&" ++ str_repeat "*" d ++ snip := by
  obtain ⟨rg, r, mu, rg2, r2, mu2, h1, h2, h3, h4, h6, hdiag⟩ :=
    check_expr_some_inv cx e diag h
  subst hdiag
  refine ⟨(sugg_pair e (chainDepth r2)).2,
    snippet cx (sugg_pair e (chainDepth r2)).1 "x", ?_, rfl⟩
  exact le_trans (chainDepth_pos cx.tcx r2 h4 h6) (sugg_pair_count_ge e (chainDepth r2))

/-- C10 witness: the emitted suggestion at the Scenario A fixture contains at least
one dereference operator. -/
theorem check_expr_sugg_min_one_deref_witness :
    ∃ d snip, 1 ≤ d ∧ diag0.sugg = "&" ++ str_repeat "*" d ++ snip :=
  check_expr_sugg_min_one_deref cx0 e0 diag0 (by decide)

end Clippy
